import Mathlib

/-!
Verification of the record store and its query/report surface of the
quality-control record application (src/app.py), shallowly embedded in
Lean.  The SQLite table `products`, its CRUD statements, the LIKE-based
keyword search, the pandas groupby aggregation, the column renamer and
the PDF pagination loop are modelled as executable Lean definitions and
their specified properties proved or refuted.
-/

namespace ASNS

/-- The 21 data fields of one row of the `products` table
(src/app.py, CREATE TABLE, lines 14-39).  TEXT columns are
`Option String` and REAL columns `Option Rat` — the schema declares no
NOT NULL constraint, so every column is nullable; REAL values are
modelled as rationals. -/
structure Fields where
  sno : Option String
  date_of_intervention : Option String
  yard_location : Option String
  batchno : Option String
  hold_no : Option String
  material : Option String
  lots_id : Option String
  sgs_reference_id : Option String
  planned_qty : Option Rat
  loaded_qty : Option Rat
  balance_qty : Option Rat
  dry_colour : Option String
  wet_colour : Option String
  loi : Option Rat
  mgo : Option Rat
  sio2 : Option Rat
  asbestos : Option String
  truck_no : Option String
  remarks : Option String
  vessel_name : Option String
  sgs_report_id : Option String
  deriving DecidableEq, Repr

/-- One stored row: the INTEGER PRIMARY KEY AUTOINCREMENT `id` column
plus the 21 data fields. -/
structure Row where
  id : Nat
  fields : Fields
  deriving DecidableEq, Repr

/-- The durable state: the rows of `products` in storage order, plus the
AUTOINCREMENT counter (the next id SQLite will hand out; with
AUTOINCREMENT it is strictly larger than every id ever used). -/
structure Store where
  rows : List Row
  nextId : Nat
  deriving DecidableEq, Repr

/-- The freshly created database: empty table, AUTOINCREMENT starts
handing out ids at 1. -/
def initStore : Store := { rows := [], nextId := 1 }

/-- `add_record(data)` (src/app.py lines 43-52): INSERT of the full
21-field tuple; the id column is auto-assigned the next counter value,
which is then bumped. -/
def add_record (data : Fields) (s : Store) : Store :=
  { rows := s.rows ++ [{ id := s.nextId, fields := data }],
    nextId := s.nextId + 1 }

/-- `fetch_records()` with the default query `SELECT * FROM products`
(src/app.py lines 54-55): all rows in storage order. -/
def fetch_records (s : Store) : List Row := s.rows

/-- `update_record(record_id, data)` (src/app.py lines 57-66): UPDATE of
every data column of the rows whose id matches; the id column itself is
not in the SET list. -/
def update_record (record_id : Nat) (data : Fields) (s : Store) : Store :=
  { s with
    rows := s.rows.map fun r =>
      if r.id = record_id then { id := r.id, fields := data } else r }

/-- `delete_record(record_id)` (src/app.py lines 68-70): DELETE of the
rows whose id matches. -/
def delete_record (record_id : Nat) (s : Store) : Store :=
  { s with rows := s.rows.filter fun r => r.id ≠ record_id }

/-- Reading one record back by its identifier, as the update form does
with `df[df["id"]==selected_id].iloc[0]` (src/app.py line 198): the
first stored row carrying that id. -/
def fetchById (record_id : Nat) (s : Store) : Option Fields :=
  (s.rows.find? fun r => r.id = record_id).map Row.fields

/-- Store well-formedness: every stored id is below the AUTOINCREMENT
counter, and ids are pairwise distinct (PRIMARY KEY). -/
def Store.WF (s : Store) : Prop :=
  (∀ r ∈ s.rows, r.id < s.nextId) ∧ (s.rows.map Row.id).Nodup

instance (s : Store) : Decidable s.WF := by
  unfold Store.WF; infer_instance

/-- A sample field tuple used to instantiate theorems on concrete
stores. -/
def sampleFields : Fields :=
  { sno := some "1", date_of_intervention := some "2024-01-02",
    yard_location := some "Y1", batchno := some "B1",
    hold_no := some "H1", material := some "Iron Ore",
    lots_id := some "L1", sgs_reference_id := some "R1",
    planned_qty := some 10, loaded_qty := some 4, balance_qty := some 6,
    dry_colour := some "red", wet_colour := some "brown",
    loi := some 1, mgo := some 2, sio2 := some 3,
    asbestos := some "no", truck_no := some "T1",
    remarks := some "", vessel_name := some "MV Alba",
    sgs_report_id := some "S1" }

theorem map_id_of_no_match {i : Nat} {d : Fields} {l : List Row}
    (h : ∀ r ∈ l, r.id ≠ i) :
    (l.map fun r => if r.id = i then { id := r.id, fields := d } else r) = l := by
  induction l with
  | nil => rfl
  | cons a t ih =>
    have ha : a.id ≠ i := h a (List.mem_cons_self a t)
    simp only [List.map_cons, if_neg ha, List.cons.injEq, true_and]
    exact ih fun r hr => h r (List.mem_cons_of_mem a hr)

/-- Claim C4: for an identifier absent from the store, `update_record`
and `delete_record` are silent no-ops: the store is unchanged, no row is
affected, and the record count is preserved. -/
theorem update_delete_absent_id_noop (s : Store) (i : Nat) (d : Fields)
    (h : ∀ r ∈ s.rows, r.id ≠ i) :
    update_record i d s = s ∧ delete_record i s = s ∧
    (update_record i d s).rows.length = s.rows.length ∧
    (delete_record i s).rows.length = s.rows.length := by
  have hu : update_record i d s = s := by
    cases s with
    | mk rows nextId =>
      simp only [update_record]
      exact congrArg (Store.mk · nextId) (map_id_of_no_match h)
  have hd : delete_record i s = s := by
    cases s with
    | mk rows nextId =>
      simp only [delete_record]
      refine congrArg (Store.mk · nextId) ?_
      refine List.filter_eq_self.mpr fun r hr => ?_
      exact decide_eq_true (h r hr)
  exact ⟨hu, hd, by rw [hu], by rw [hd]⟩

/-- Witness for C4 at a concrete store: id 2 is absent from a store
holding one row with id 1, and both operations leave it intact. -/
theorem update_delete_absent_id_noop_witness :
    (∀ r ∈ (add_record sampleFields initStore).rows, r.id ≠ 2) ∧
    update_record 2 sampleFields (add_record sampleFields initStore) =
      add_record sampleFields initStore ∧
    delete_record 2 (add_record sampleFields initStore) =
      add_record sampleFields initStore := by
  refine ⟨by decide, ?_, ?_⟩
  · exact (update_delete_absent_id_noop (add_record sampleFields initStore) 2
      sampleFields (by decide)).1
  · exact (update_delete_absent_id_noop (add_record sampleFields initStore) 2
      sampleFields (by decide)).2.1

/-- List-level core of the update-then-delete frame property. -/
theorem find_after_update_delete {i j : Nat} {d : Fields} (hji : j ≠ i) :
    ∀ l : List Row, (∃ r ∈ l, r.id = i) →
      (((l.map fun r => if r.id = i then { id := r.id, fields := d } else r).filter
          fun r => r.id ≠ j).find? fun r => r.id = i).map Row.fields = some d := by
  intro l
  induction l with
  | nil => rintro ⟨r0, hr0, -⟩; cases hr0
  | cons a t ih =>
    rintro ⟨r0, hr0, hr0i⟩
    by_cases ha : a.id = i
    · have hij : ¬ (a.id = j) := fun hc => hji (hc.symm.trans ha)
      simp only [List.map_cons, if_pos ha, List.filter_cons]
      rw [decide_eq_true (show (Row.mk a.id d).id ≠ j from hij)]
      simp [List.find?, ha]
    · rcases List.mem_cons.mp hr0 with h0 | h0
      · exact absurd (h0 ▸ hr0i) ha
      · have tail := ih ⟨r0, h0, hr0i⟩
        simp only [List.map_cons, if_neg ha, List.filter_cons]
        by_cases haj : a.id = j
        · rw [decide_eq_false (by simpa using haj)]
          exact tail
        · rw [decide_eq_true (by simpa using haj), if_pos rfl,
            List.find?_cons_of_neg _ (by simpa using ha)]
          exact tail

/-- Claim C6: updating the record with identifier `i` and then deleting
a different identifier `j` leaves record `i` present, readable, and
holding exactly the updated field values. -/
theorem update_then_delete_other_frame (s : Store) (i j : Nat) (d : Fields)
    (hji : j ≠ i) (hi : ∃ r ∈ s.rows, r.id = i) :
    fetchById i (delete_record j (update_record i d s)) = some d := by
  simp only [fetchById, delete_record, update_record]
  exact find_after_update_delete hji s.rows hi

/-- Witness for C6: in a two-row store, update id 1 then delete id 2;
row 1 reads back with exactly the updated fields. -/
theorem update_then_delete_other_frame_witness :
    (2 ≠ 1 ∧ ∃ r ∈ (add_record sampleFields (add_record sampleFields initStore)).rows, r.id = 1) ∧
    fetchById 1 (delete_record 2 (update_record 1
        { sampleFields with material := some "Bauxite" }
        (add_record sampleFields (add_record sampleFields initStore)))) =
      some { sampleFields with material := some "Bauxite" } := by
  refine ⟨⟨by decide, ?_⟩, ?_⟩
  · exact ⟨{ id := 1, fields := sampleFields }, by decide, rfl⟩
  · exact update_then_delete_other_frame
      (add_record sampleFields (add_record sampleFields initStore)) 1 2
      { sampleFields with material := some "Bauxite" } (by decide)
      ⟨{ id := 1, fields := sampleFields }, by decide, rfl⟩

/-- A calendar date as produced by the date picker. -/
structure DateD where
  year : Nat
  month : Nat
  day : Nat
  deriving DecidableEq, Repr

/-- Two-digit zero padding, as in the day and month parts of
`str(datetime.date)`. -/
def pad2 (n : Nat) : String :=
  if n < 10 then "0" ++ toString n else toString n

/-- Four-digit zero padding, as in the year part of
`str(datetime.date)`. -/
def pad4 (n : Nat) : String :=
  if n < 10 then "000" ++ toString n
  else if n < 100 then "00" ++ toString n
  else if n < 1000 then "0" ++ toString n
  else toString n

/-- `str(date_of_intervention)` (src/app.py line 174): the ISO
`YYYY-MM-DD` rendering of the picked date. -/
def dateToStr (d : DateD) : String :=
  pad4 d.year ++ "-" ++ pad2 d.month ++ "-" ++ pad2 d.day

/-- The values collected by the Add-New-Record form (src/app.py lines
143-171): text inputs yield strings, the date input a date, number
inputs floats (modelled as rationals). -/
structure FormData where
  sno : String
  date_of_intervention : DateD
  yard_location : String
  batchno : String
  hold_no : String
  material : String
  lots_id : String
  sgs_reference_id : String
  planned_qty : Rat
  loaded_qty : Rat
  balance_qty : Rat
  dry_colour : String
  wet_colour : String
  loi : Rat
  mgo : Rat
  sio2 : Rat
  asbestos : String
  truck_no : String
  remarks : String
  vessel_name : String
  sgs_report_id : String
  deriving DecidableEq, Repr

/-- The tuple built at form submission (src/app.py lines 174-177): every
value passed through unchanged except the date, coerced to its string
form; all bound values are non-null. -/
def toFields (f : FormData) : Fields :=
  { sno := some f.sno,
    date_of_intervention := some (dateToStr f.date_of_intervention),
    yard_location := some f.yard_location,
    batchno := some f.batchno,
    hold_no := some f.hold_no,
    material := some f.material,
    lots_id := some f.lots_id,
    sgs_reference_id := some f.sgs_reference_id,
    planned_qty := some f.planned_qty,
    loaded_qty := some f.loaded_qty,
    balance_qty := some f.balance_qty,
    dry_colour := some f.dry_colour,
    wet_colour := some f.wet_colour,
    loi := some f.loi,
    mgo := some f.mgo,
    sio2 := some f.sio2,
    asbestos := some f.asbestos,
    truck_no := some f.truck_no,
    remarks := some f.remarks,
    vessel_name := some f.vessel_name,
    sgs_report_id := some f.sgs_report_id }

/-- The create operation as triggered by the form submit branch
(src/app.py lines 173-178): coerce the form values, then INSERT. -/
def createFromForm (f : FormData) (s : Store) : Store :=
  add_record (toFields f) s

theorem find?_append_fresh {n : Nat} {d : Fields} :
    ∀ l : List Row, (∀ r ∈ l, r.id ≠ n) →
      ((l ++ [({ id := n, fields := d } : Row)]).find? fun r => r.id = n) =
        some ({ id := n, fields := d } : Row) := by
  intro l
  induction l with
  | nil => intro _; simp [List.find?]
  | cons a t ih =>
    intro h
    have ha : a.id ≠ n := h a (List.mem_cons_self a t)
    rw [List.cons_append, List.find?_cons_of_neg _ (by simpa using ha)]
    exact ih fun r hr => h r (List.mem_cons_of_mem a hr)

/-- Claim C3: a record inserted through the create form and immediately
read back by its assigned identifier round-trips every field exactly,
after the declared coercions: the date is stored as its string form and
every other value is stored as given, non-null. -/
theorem create_then_fetch_roundtrip (s : Store) (f : FormData)
    (hWF : ∀ r ∈ s.rows, r.id < s.nextId) :
    fetchById s.nextId (createFromForm f s) = some (toFields f) ∧
    (toFields f).date_of_intervention = some (dateToStr f.date_of_intervention) ∧
    (toFields f).sno = some f.sno ∧
    (toFields f).yard_location = some f.yard_location ∧
    (toFields f).batchno = some f.batchno ∧
    (toFields f).hold_no = some f.hold_no ∧
    (toFields f).material = some f.material ∧
    (toFields f).lots_id = some f.lots_id ∧
    (toFields f).sgs_reference_id = some f.sgs_reference_id ∧
    (toFields f).planned_qty = some f.planned_qty ∧
    (toFields f).loaded_qty = some f.loaded_qty ∧
    (toFields f).balance_qty = some f.balance_qty ∧
    (toFields f).dry_colour = some f.dry_colour ∧
    (toFields f).wet_colour = some f.wet_colour ∧
    (toFields f).loi = some f.loi ∧
    (toFields f).mgo = some f.mgo ∧
    (toFields f).sio2 = some f.sio2 ∧
    (toFields f).asbestos = some f.asbestos ∧
    (toFields f).truck_no = some f.truck_no ∧
    (toFields f).remarks = some f.remarks ∧
    (toFields f).vessel_name = some f.vessel_name ∧
    (toFields f).sgs_report_id = some f.sgs_report_id := by
  refine ⟨?_, rfl, rfl, rfl, rfl, rfl, rfl, rfl, rfl, rfl, rfl, rfl, rfl,
    rfl, rfl, rfl, rfl, rfl, rfl, rfl, rfl, rfl⟩
  simp only [fetchById, createFromForm, add_record]
  rw [find?_append_fresh s.rows fun r hr => Nat.ne_of_lt (hWF r hr)]
  rfl

/-- A sample filled-in form used to instantiate the round-trip claim. -/
def sampleForm : FormData :=
  { sno := "7", date_of_intervention := { year := 2024, month := 3, day := 9 },
    yard_location := "Y2", batchno := "B77", hold_no := "H2",
    material := "Chromite", lots_id := "L9", sgs_reference_id := "R9",
    planned_qty := 20, loaded_qty := 8, balance_qty := 12,
    dry_colour := "grey", wet_colour := "black",
    loi := 2, mgo := 1, sio2 := 5, asbestos := "no", truck_no := "T9",
    remarks := "ok", vessel_name := "MV Beta", sgs_report_id := "S9" }

/-- Witness for C3 on the fresh store: the form record receives id 1 and
reads back exactly, with the date stored as the string 2024-03-09. -/
theorem create_then_fetch_roundtrip_witness :
    (∀ r ∈ initStore.rows, r.id < initStore.nextId) ∧
    fetchById initStore.nextId (createFromForm sampleForm initStore) =
      some (toFields sampleForm) ∧
    (toFields sampleForm).date_of_intervention = some "2024-03-09" := by
  refine ⟨by decide, (create_then_fetch_roundtrip initStore sampleForm (by decide)).1, ?_⟩
  decide

/-- Page count of `df_to_pdf_bytes` (src/app.py line 106):
`num_pages = (total_rows // max_rows_per_page) + 1` with
`max_rows_per_page = 25`. -/
def num_pages (total_rows : Nat) : Nat := total_rows / 25 + 1

/-- The sequence of page contents rendered by the loop of
`df_to_pdf_bytes` (src/app.py lines 108-111): page `p` renders
`df.iloc[p*25 : p*25 + 25]`, Python slicing clamping at the end of the
frame. -/
def pdfPages {α : Type u} (l : List α) : List (List α) :=
  (List.range (num_pages l.length)).map fun page => (l.drop (page * 25)).take 25

theorem pdfPages_step {α : Type u} {l : List α} (h : 25 ≤ l.length) :
    pdfPages l = l.take 25 :: pdfPages (l.drop 25) := by
  have hdiv : l.length / 25 = (l.length - 25) / 25 + 1 :=
    Nat.div_eq_sub_div (by omega) h
  simp only [pdfPages, num_pages, List.length_drop, hdiv,
    List.range_succ_eq_map, List.map_cons, List.map_map]
  congr 1
  simp only [List.drop_drop, List.cons.injEq, List.map_inj_left,
    Function.comp_apply, List.mem_range]
  constructor
  · trivial
  · intro a _
    congr 2
    omega

theorem pdfPages_nil_or_small {α : Type u} {l : List α}
    (h : l.length < 25) : pdfPages l = [l] := by
  have hdiv : l.length / 25 = 0 := Nat.div_eq_of_lt h
  simp only [pdfPages, num_pages, hdiv, zero_add, List.range_succ,
    List.range_zero, List.nil_append, List.map_cons, List.map_nil,
    Nat.zero_mul, List.drop_zero]
  rw [List.take_of_length_le (by omega)]

theorem pdfPages_get?_aux {α : Type u} (l : List α) (k : Nat)
    (hk : k < num_pages l.length) :
    (pdfPages l).get? k = some ((l.drop (k * 25)).take 25) := by
  simp only [pdfPages]
  rw [List.get?_map, List.get?_range hk]
  rfl

theorem pdfPages_flatten_aux {α : Type u} (n : Nat) :
    ∀ l : List α, l.length ≤ n → (pdfPages l).flatten = l := by
  induction n with
  | zero =>
    intro l h
    have hl : l = [] := List.length_eq_zero.mp (Nat.le_zero.mp h)
    subst hl
    rw [pdfPages_nil_or_small (by omega)]
    rfl
  | succ n ih =>
    intro l h
    by_cases h25 : 25 ≤ l.length
    · rw [pdfPages_step h25, List.flatten_cons,
        ih (l.drop 25) (by simp only [List.length_drop]; omega)]
      exact List.take_append_drop 25 l
    · rw [pdfPages_nil_or_small (by omega)]
      simp

/-- Claim C7: the export renderer partitions the rows into consecutive
pages of at most 25 rows in order — page `k` holds rows `25k` through
`25k + 24` — so the concatenation of all pages equals the input in its
original order, every row appearing exactly once. -/
theorem pdfPages_partition {α : Type u} (l : List α) :
    (pdfPages l).flatten = l ∧
    (∀ p ∈ pdfPages l, p.length ≤ 25) ∧
    (∀ k, k < num_pages l.length →
      (pdfPages l).get? k = some ((l.drop (k * 25)).take 25)) := by
  refine ⟨pdfPages_flatten_aux l.length l le_rfl, ?_, pdfPages_get?_aux l⟩
  intro p hp
  obtain ⟨page, -, rfl⟩ := List.mem_map.mp hp
  simpa using List.length_take_le 25 (l.drop (page * 25))

/-- Witness for C7 at 30 concrete rows: the pages concatenate back to
the input and page 1 holds rows 25-29. -/
theorem pdfPages_partition_witness :
    (pdfPages (List.range 30)).flatten = List.range 30 ∧
    (1 < num_pages (List.range 30).length ∧
      (pdfPages (List.range 30)).get? 1 =
        some (((List.range 30).drop 25).take 25)) := by
  refine ⟨(pdfPages_partition (List.range 30)).1, by decide, ?_⟩
  exact (pdfPages_partition (List.range 30)).2.2 1 (by decide)

/-- Claim C2: the renderer produces exactly `n / 25 + 1` pages; a record
set whose length is an exact multiple of 25 gets one extra trailing
empty page, and the empty record set still produces one empty-body
page. -/
theorem pdfPages_count {α : Type u} (l : List α) :
    (pdfPages l).length = l.length / 25 + 1 ∧
    (25 ∣ l.length → (pdfPages l).getLast? = some []) ∧
    (l = [] → pdfPages l = [[]]) := by
  refine ⟨by simp [pdfPages, num_pages], ?_, ?_⟩
  · intro hdvd
    have hlen : (pdfPages l).length = l.length / 25 + 1 := by
      simp [pdfPages, num_pages]
    rw [List.getLast?_eq_get?, hlen]
    simp only [Nat.add_sub_cancel]
    rw [pdfPages_get?_aux l (l.length / 25) (Nat.lt_succ_self _)]
    rw [Nat.div_mul_cancel hdvd, List.drop_length]
    rfl
  · intro hl
    subst hl
    rw [pdfPages_nil_or_small (by simp)]

/-- Witness for C2 at a 50-row record set: 50 is an exact multiple of
25, three pages come out and the last one is empty; the empty record
set yields the single empty page. -/
theorem pdfPages_count_witness :
    (pdfPages (List.replicate 50 0)).length = 3 ∧
    (25 ∣ (List.replicate 50 0).length ∧
      (pdfPages (List.replicate 50 0)).getLast? = some []) ∧
    pdfPages ([] : List Nat) = [[]] := by
  refine ⟨?_, ⟨by decide, ?_⟩, (pdfPages_count ([] : List Nat)).2.2 rfl⟩
  · have := (pdfPages_count (List.replicate 50 0)).1
    simpa using this
  · exact (pdfPages_count (List.replicate 50 0)).2.1 (by decide)

/-- SQLite's ASCII case folding, applied by the default LIKE operator:
the 26 upper-case ASCII letters fold to their lower-case forms, every
other character is left alone. -/
def foldAscii (c : Char) : Char :=
  if 'A' ≤ c ∧ c ≤ 'Z' then Char.ofNat (c.toNat + 32) else c

/-- SQLite's default LIKE pattern matcher (no ESCAPE clause, default
`case_sensitive_like` off): `%` matches any sequence of characters,
`_` matches any single character, and every other pattern character
matches a text character equal to it up to ASCII case folding. -/
def likeMatch : List Char → List Char → Bool
  | [], s => s.isEmpty
  | p :: ps, s =>
    if p = '%' then s.tails.any fun t => likeMatch ps t
    else
      match s with
      | [] => false
      | c :: cs => (p == '_' || foldAscii p == foldAscii c) && likeMatch ps cs

/-- The pattern `f"%{keyword}%"` built by `show_search_filter`
(src/app.py line 248). -/
def likePattern (kw : String) : List Char := '%' :: (kw.data ++ ['%'])

/-- One LIKE atom of the WHERE clause: SQL NULL LIKE anything is NULL,
which does not satisfy the disjunction, so a NULL column contributes
false. -/
def optLike (kw : String) : Option String → Bool
  | none => false
  | some t => likeMatch (likePattern kw) t.data

/-- `search(keyword)` (src/app.py lines 247-248): the rows satisfying
`batchno LIKE ? OR material LIKE ? OR vessel_name LIKE ?` with all
three parameters bound to `%keyword%`, in storage order. -/
def search (kw : String) (s : Store) : List Row :=
  s.rows.filter fun r =>
    optLike kw r.fields.batchno || optLike kw r.fields.material ||
      optLike kw r.fields.vessel_name

/-- Spec-side notion: `ks` is a prefix of the text up to ASCII case
folding. -/
def startsCI : List Char → List Char → Bool
  | [], _ => true
  | _ :: _, [] => false
  | k :: ks, c :: cs => (foldAscii k == foldAscii c) && startsCI ks cs

/-- Spec-side notion: `ks` occurs inside the text as an
ASCII-case-insensitive substring. -/
def hasSubCI (ks : List Char) : List Char → Bool
  | [] => startsCI ks []
  | c :: cs => startsCI ks (c :: cs) || hasSubCI ks cs

/-- Spec-side notion: `ks` is a literal (case-sensitive) prefix of the
text. -/
def startsLit : List Char → List Char → Bool
  | [], _ => true
  | _ :: _, [] => false
  | k :: ks, c :: cs => (k == c) && startsLit ks cs

/-- Spec-side notion: `ks` occurs inside the text as a literal
case-sensitive substring — the containment relation claimed for
`search`. -/
def hasSubLit (ks : List Char) : List Char → Bool
  | [] => startsLit ks []
  | c :: cs => startsLit ks (c :: cs) || hasSubLit ks cs

/-- The spec-side match of one nullable column: non-null and containing
the keyword case-insensitively. -/
def optHasSubCI (kw : String) : Option String → Bool
  | none => false
  | some t => hasSubCI kw.data t.data

theorem likeMatch_percent_cons (ps : List Char) (s : List Char) :
    likeMatch ('%' :: ps) s = s.tails.any fun t => likeMatch ps t := by
  simp [likeMatch]

theorem likeMatch_percent : ∀ s : List Char, likeMatch ['%'] s = true := by
  intro s
  induction s with
  | nil => decide
  | cons c cs ih =>
    rw [likeMatch_percent_cons] at ih ⊢
    simp only [List.tails_cons, List.any_cons]
    rw [ih]
    simp

theorem likeMatch_lit {ks : List Char} (hks : ∀ c ∈ ks, ¬ c = '%' ∧ ¬ c = '_') :
    ∀ s : List Char, likeMatch (ks ++ ['%']) s = startsCI ks s := by
  induction ks with
  | nil =>
    intro s
    rw [List.nil_append, likeMatch_percent s]
    cases s <;> rfl
  | cons k ks ih =>
    intro s
    have hk : ¬ k = '%' := (hks k (List.mem_cons_self k ks)).1
    have hk2 : ¬ k = '_' := (hks k (List.mem_cons_self k ks)).2
    have ih2 := ih fun c hc => hks c (List.mem_cons_of_mem k hc)
    cases s with
    | nil => simp [likeMatch, if_neg hk, startsCI]
    | cons c cs =>
      have hbeq : (k == '_') = false := beq_eq_false_iff_ne.mpr hk2
      simp only [List.cons_append, likeMatch, if_neg hk, hbeq,
        Bool.false_or, startsCI, List.append_eq]
      rw [ih2 cs]

theorem likeMatch_sub {ks : List Char} (hks : ∀ c ∈ ks, ¬ c = '%' ∧ ¬ c = '_') :
    ∀ s : List Char, likeMatch ('%' :: (ks ++ ['%'])) s = hasSubCI ks s := by
  intro s
  rw [likeMatch_percent_cons]
  induction s with
  | nil =>
    simp only [show ([] : List Char).tails = [[]] from rfl, List.any_cons,
      List.any_nil, Bool.or_false, likeMatch_lit hks, hasSubCI]
  | cons c cs ih =>
    simp only [List.tails_cons, List.any_cons]
    rw [ih]
    simp only [likeMatch_lit hks, hasSubCI]

theorem hasSubCI_nil (s : List Char) : hasSubCI [] s = true := by
  cases s <;> simp [hasSubCI, startsCI]

theorem optLike_eq_optHasSubCI {kw : String}
    (hkw : ∀ c ∈ kw.data, ¬ c = '%' ∧ ¬ c = '_') (o : Option String) :
    optLike kw o = optHasSubCI kw o := by
  cases o with
  | none => rfl
  | some t =>
    simp only [optLike, optHasSubCI, likePattern]
    exact likeMatch_sub hkw t.data

/-- A one-row store exercising the search operator: its only row has
batch number "AB" and NULL material and vessel name. -/
def likeStore : Store :=
  { rows := [{ id := 1,
               fields := { sampleFields with
                 batchno := some "AB", material := none,
                 vessel_name := none } }],
    nextId := 2 }

/-- Counterexample to claim C1 as stated: the search keyword "a" is not
a case-sensitive substring of "AB" (and the other two searched fields
of the only row are NULL), yet `search "a"` returns that row — the
underlying LIKE comparison folds ASCII case.  Moreover `search ""`
returns the row although its material and vessel name are NULL, so the
result is not the rows whose three searched fields are all non-null. -/
theorem search_case_sensitive_cex :
    search "a" likeStore = likeStore.rows ∧
    (likeStore.rows.map fun r => r.fields.batchno) = [some "AB"] ∧
    (likeStore.rows.map fun r => r.fields.material) = [none] ∧
    (likeStore.rows.map fun r => r.fields.vessel_name) = [none] ∧
    hasSubLit "a".data "AB".data = false ∧
    search "" likeStore = likeStore.rows := by decide

/-- Claim C1 (amended): for a keyword free of the LIKE wildcards `%`
and `_`, `search` returns exactly the rows at least one of whose batch
number, material, or vessel name is a non-null string containing the
keyword as an ASCII-case-insensitive substring; in particular the empty
keyword returns exactly the rows with at least one of the three
searched fields non-null. -/
theorem search_filters_ci_substring (kw : String)
    (hkw : ∀ c ∈ kw.data, ¬ c = '%' ∧ ¬ c = '_') (s : Store) :
    search kw s = (s.rows.filter fun r =>
      optHasSubCI kw r.fields.batchno || optHasSubCI kw r.fields.material ||
        optHasSubCI kw r.fields.vessel_name) ∧
    search "" s = (s.rows.filter fun r =>
      r.fields.batchno.isSome || r.fields.material.isSome ||
        r.fields.vessel_name.isSome) := by
  constructor
  · simp only [search, optLike_eq_optHasSubCI hkw]
  · have hnil : ∀ o : Option String, optLike "" o = o.isSome := by
      intro o
      cases o with
      | none => rfl
      | some t =>
        simp only [optLike, likePattern, Option.isSome_some]
        rw [@likeMatch_sub [] (by intro c hc; cases hc) t.data]
        exact hasSubCI_nil t.data
    simp only [search, hnil]

/-- Witness for the amended C1: the wildcard-free keyword "b" finds the
row with batch number "AB" (case-insensitively) in the concrete
store. -/
theorem search_filters_ci_substring_witness :
    (∀ c ∈ "b".data, ¬ c = '%' ∧ ¬ c = '_') ∧
    search "b" likeStore = (likeStore.rows.filter fun r =>
      optHasSubCI "b" r.fields.batchno || optHasSubCI "b" r.fields.material ||
        optHasSubCI "b" r.fields.vessel_name) := by
  exact ⟨by decide, (search_filters_ci_substring "b" (by decide) likeStore).1⟩

/-- Claim C9: the keyword is embedded in the LIKE pattern as %keyword%,
so a keyword containing the metacharacter `_` returns rows that do not
contain it as a literal substring: searching "_" over the store whose
only row has batch number "AB" (material and vessel name NULL) returns
that row, although "_" occurs literally in none of its searched
fields — the wildcard matched the single character "A". -/
theorem search_wildcard_not_literal :
    search "_" likeStore = likeStore.rows ∧
    (likeStore.rows.map fun r => r.fields.batchno) = [some "AB"] ∧
    (likeStore.rows.map fun r => r.fields.material) = [none] ∧
    (likeStore.rows.map fun r => r.fields.vessel_name) = [none] ∧
    hasSubLit "_".data "AB".data = false := by decide

/-- The float sum of one group's measure: pandas `sum()` over the rows
whose key column equals the group value, a NULL measure contributing
nothing (`skipna`), an all-NULL group summing to 0. -/
def groupTotal (key : Fields → Option String) (measure : Fields → Option Rat)
    (g : String) (rows : List Row) : Rat :=
  (rows.filter fun r => key r.fields = some g).foldr
    (fun r acc => (measure r.fields).getD 0 + acc) 0

/-- Code-point lexicographic comparison of character lists — the order
Python uses on strings, hence the order of pandas group keys. -/
def charsLe : List Char → List Char → Bool
  | [], _ => true
  | _ :: _, [] => false
  | a :: as, b :: bs => if a = b then charsLe as bs else decide (a < b)

/-- Python string comparison, lifted to the underlying characters. -/
def strLe (a b : String) : Bool := charsLe a.data b.data

/-- `df.groupby(keyCol)[measureCol].sum()` (src/app.py lines 268-271):
the distinct non-NULL key values in sorted order (pandas groupby sorts
group keys and drops NULL keys), each paired with the sum of the
measure over its rows. -/
def groupSum (key : Fields → Option String) (measure : Fields → Option Rat)
    (rows : List Row) : List (String × Rat) :=
  (((rows.filterMap fun r => key r.fields).dedup).insertionSort
      fun a b => strLe a b = true).map
    fun g => (g, groupTotal key measure g rows)

/-- The Material-vs-Loaded-Qty report (src/app.py line 269). -/
def materialLoadedReport (s : Store) : List (String × Rat) :=
  groupSum (fun f => f.material) (fun f => f.loaded_qty) s.rows

/-- The Yard-vs-Planned-Qty report (src/app.py line 271). -/
def yardPlannedReport (s : Store) : List (String × Rat) :=
  groupSum (fun f => f.yard_location) (fun f => f.planned_qty) s.rows

/-- The record set of the aggregation example: A(material=X, loaded=10),
B(material=X, loaded=5), C(material=Y, loaded=3). -/
def exampleStore : Store :=
  { rows :=
      [{ id := 1, fields := { sampleFields with
           material := some "X", loaded_qty := some 10 } },
       { id := 2, fields := { sampleFields with
           material := some "X", loaded_qty := some 5 } },
       { id := 3, fields := { sampleFields with
           material := some "Y", loaded_qty := some 3 } }],
    nextId := 4 }

/-- Claim C5: aggregating by a grouping dimension with its paired
measure yields a mapping holding exactly one entry per group value
occurring in some record — no key has zero records — whose value is the
sum of the measure over that group; on the example records the
material/loaded aggregation is exactly X at 15 and Y at 3. -/
theorem groupSum_spec (key : Fields → Option String)
    (measure : Fields → Option Rat) (rows : List Row) :
    (∀ g v, (g, v) ∈ groupSum key measure rows ↔
      ((∃ r ∈ rows, key r.fields = some g) ∧
        v = groupTotal key measure g rows)) ∧
    ((groupSum key measure rows).map Prod.fst).Nodup ∧
    materialLoadedReport exampleStore = [("X", 15), ("Y", 3)] := by
  refine ⟨?_, ?_, ?_⟩
  case refine_3 =>
    simp only [materialLoadedReport, groupSum, groupTotal]
    norm_num [exampleStore, sampleFields, List.insertionSort, List.orderedInsert,
      show strLe "X" "Y" = true from by decide,
      show ¬ ((some "Y" : Option String) = some "X") from by decide,
      show ¬ ((some "X" : Option String) = some "Y") from by decide]
  · intro g v
    constructor
    · intro hmem
      obtain ⟨g0, hg0, heq⟩ := List.mem_map.mp hmem
      obtain ⟨rfl, rfl⟩ := Prod.mk.injEq .. ▸ heq
      have : g0 ∈ (rows.filterMap fun r => key r.fields).dedup :=
        (List.mem_insertionSort _).mp hg0
      obtain ⟨r, hr, hkey⟩ := List.mem_filterMap.mp (List.mem_dedup.mp this)
      exact ⟨⟨r, hr, hkey⟩, rfl⟩
    · rintro ⟨⟨r, hr, hkey⟩, rfl⟩
      refine List.mem_map.mpr ⟨g, ?_, rfl⟩
      exact (List.mem_insertionSort _).mpr
        (List.mem_dedup.mpr (List.mem_filterMap.mpr ⟨r, hr, hkey⟩))
  · have hn : ((rows.filterMap fun r => key r.fields).dedup).Nodup :=
      List.nodup_dedup _
    have hperm := List.perm_insertionSort (fun a b : String => strLe a b = true)
      ((rows.filterMap fun r => key r.fields).dedup)
    have hsorted : (((rows.filterMap fun r => key r.fields).dedup).insertionSort
        fun a b => strLe a b = true).Nodup := hperm.nodup_iff.mpr hn
    have hcomp : (Prod.fst ∘ fun g => (g, groupTotal key measure g rows)) = id := by
      funext g
      rfl
    simpa [groupSum, List.map_map, hcomp] using hsorted

/-- Witness for C5: in the example store, X aggregates to 15 — obtained
from the membership characterisation instantiated at the concrete
group. -/
theorem groupSum_spec_witness :
    ("X", (15 : Rat)) ∈ materialLoadedReport exampleStore := by
  refine ((groupSum_spec (fun f => f.material) (fun f => f.loaded_qty)
    exampleStore.rows).1 "X" 15).mpr ⟨⟨exampleStore.rows.head (by decide),
      by decide, by decide⟩, ?_⟩
  simp only [groupTotal]
  norm_num [exampleStore, sampleFields,
    show ¬ ((some "Y" : Option String) = some "X") from by decide]

/-- A dataframe as an ordered sequence of labelled columns of cell
values; the row count is the common length of the columns' cell
lists. -/
structure DFrame (α : Type u) where
  cols : List (String × List α)
  deriving DecidableEq, Repr

/-- The fixed label map of `rename_columns` (src/app.py lines 74-96). -/
def rename_map : List (String × String) :=
  [("sno", "S.No"), ("date_of_intervention", "Date Of Intervention"),
   ("yard_location", "Yard Location"), ("batchno", "Batch No."),
   ("hold_no", "Hold No."), ("material", "Material"),
   ("lots_id", "Lots ID"), ("sgs_reference_id", "SGS Reference ID"),
   ("planned_qty", "Planned Qty (Tons)"), ("loaded_qty", "Loaded Qty (Tons)"),
   ("balance_qty", "Balance Qty (Tons)"), ("dry_colour", "Dry Colour"),
   ("wet_colour", "Wet Colour"), ("loi", "LOI"), ("mgo", "MgO"),
   ("sio2", "SiO₂"), ("asbestos", "Asbestos"), ("truck_no", "Truck No."),
   ("remarks", "Remarks"), ("vessel_name", "Vessel Name"),
   ("sgs_report_id", "SGS Report ID")]

/-- How `DataFrame.rename(columns=...)` treats one label: a label in
the map is replaced by its image, any other label is kept as is. -/
def renameLabel (n : String) : String :=
  match rename_map.lookup n with
  | some l => l
  | none => n

/-- `rename_columns(df)` (src/app.py lines 73-97): relabel the columns
through the fixed map, leaving every cell value in place. -/
def rename_columns {α : Type u} (df : DFrame α) : DFrame α :=
  { cols := df.cols.map fun c => (renameLabel c.1, c.2) }

theorem lookup_eq_none_of_no_key {l : List (String × String)} {n : String}
    (h : ∀ p ∈ l, ¬ p.1 = n) : l.lookup n = none := by
  induction l with
  | nil => rfl
  | cons a t ih =>
    have ha : ¬ n = a.1 := fun hc => h a (List.mem_cons_self a t) hc.symm
    simp only [List.lookup, beq_eq_false_iff_ne.mpr ha]
    exact ih fun p hp => h p (List.mem_cons_of_mem a hp)

/-- Claim C10: the column presentation mapper changes only the column
labels: every column keeps its cell list (hence row count and row order
are unchanged), column `k` of the output is column `k` of the input
with only its label passed through the map, the map holds exactly the
21 internal field names and sends each to its declared label, and any
label outside the map — such as the identifier column `id` — is kept
unchanged rather than stripped. -/
theorem rename_columns_frame {α : Type u} (df : DFrame α) :
    ((rename_columns df).cols.map Prod.snd = df.cols.map Prod.snd) ∧
    ((rename_columns df).cols.length = df.cols.length) ∧
    (∀ k, (rename_columns df).cols.get? k =
      (df.cols.get? k).map fun c => (renameLabel c.1, c.2)) ∧
    rename_map.length = 21 ∧
    ((rename_map.map Prod.fst).Nodup ∧ ∀ p ∈ rename_map, renameLabel p.1 = p.2) ∧
    (∀ n, (∀ p ∈ rename_map, ¬ p.1 = n) → renameLabel n = n) ∧
    renameLabel "id" = "id" := by
  refine ⟨?_, ?_, ?_, by decide, by decide, ?_, by decide⟩
  · simp only [rename_columns, List.map_map]
    rfl
  · simp [rename_columns]
  · intro k
    simp [rename_columns, List.get?_map]
  · intro n hn
    simp only [renameLabel, lookup_eq_none_of_no_key hn]

/-- Witness for C10: the `id` label is outside the map and survives
renaming, and on a concrete two-column frame the cell lists are
untouched. -/
theorem rename_columns_frame_witness :
    (∀ p ∈ rename_map, ¬ p.1 = "id") ∧ renameLabel "id" = "id" ∧
    (rename_columns { cols := [("id", [1, 2]), ("material", [7, 9])] }).cols.map
        Prod.snd = [[1, 2], [7, 9]] := by
  refine ⟨by decide, ?_, ?_⟩
  · exact (rename_columns_frame { cols := [("id", [(1 : Nat), 2]),
      ("material", [7, 9])] }).2.2.2.2.2.1 "id" (by decide)
  · rw [(rename_columns_frame { cols := [("id", [(1 : Nat), 2]),
      ("material", [7, 9])] }).1]
    rfl

/-- One store operation as invoked by the form shell. -/
inductive Op where
  | create : Fields → Op
  | update : Nat → Fields → Op
  | del : Nat → Op
  deriving DecidableEq, Repr

/-- Applying one operation to the store. -/
def applyOp (s : Store) : Op → Store
  | .create d => add_record d s
  | .update i d => update_record i d s
  | .del i => delete_record i s

/-- Running a sequence of operations. -/
def run (s : Store) : List Op → Store
  | [] => s
  | op :: ops => run (applyOp s op) ops

/-- The identifiers handed out by the creates of an operation sequence
when the AUTOINCREMENT counter starts at `n`. -/
def assignedFrom (n : Nat) : List Op → List Nat
  | [] => []
  | Op.create _ :: ops => n :: assignedFrom (n + 1) ops
  | Op.update _ _ :: ops => assignedFrom n ops
  | Op.del _ :: ops => assignedFrom n ops

theorem update_record_ids (i : Nat) (d : Fields) (s : Store) :
    (update_record i d s).rows.map Row.id = s.rows.map Row.id := by
  simp only [update_record, List.map_map]
  refine List.map_congr_left fun r _ => ?_
  by_cases h : r.id = i <;> simp [h]

theorem applyOp_WF {s : Store} (hWF : s.WF) (op : Op) : (applyOp s op).WF := by
  obtain ⟨hlt, hnd⟩ := hWF
  cases op with
  | create d =>
    constructor
    · intro r hr
      simp only [applyOp, add_record, List.mem_append, List.mem_singleton] at hr
      rcases hr with h | h
      · exact Nat.lt_succ_of_lt (hlt r h)
      · subst h
        exact Nat.lt_succ_self _
    · simp only [applyOp, add_record, List.map_append, List.map_cons,
        List.map_nil]
      refine List.Nodup.append hnd (List.nodup_singleton _) ?_
      intro x hx hx2
      rw [List.mem_singleton] at hx2
      obtain ⟨r, hr, hrid⟩ := List.mem_map.mp hx
      exact absurd (hrid.trans hx2) (Nat.ne_of_lt (hlt r hr))
  | update i d =>
    constructor
    · intro r hr
      simp only [applyOp, update_record, List.mem_map] at hr
      obtain ⟨r0, hr0, rfl⟩ := hr
      by_cases h : r0.id = i
      · rw [if_pos h]
        exact hlt r0 hr0
      · rw [if_neg h]
        exact hlt r0 hr0
    · show ((update_record i d s).rows.map Row.id).Nodup
      rw [update_record_ids]
      exact hnd
  | del i =>
    constructor
    · intro r hr
      exact hlt r (List.mem_of_mem_filter hr)
    · exact ((List.filter_sublist s.rows).map Row.id).nodup hnd

theorem run_WF : ∀ (ops : List Op) (s : Store), s.WF → (run s ops).WF := by
  intro ops
  induction ops with
  | nil => exact fun s h => h
  | cons op ops ih => exact fun s h => ih (applyOp s op) (applyOp_WF h op)

theorem applyOp_nextId_le (s : Store) (op : Op) :
    s.nextId ≤ (applyOp s op).nextId := by
  cases op <;>
    simp [applyOp, add_record, update_record, delete_record, Nat.le_succ]

theorem run_nextId_le : ∀ (ops : List Op) (s : Store),
    s.nextId ≤ (run s ops).nextId := by
  intro ops
  induction ops with
  | nil => exact fun s => Nat.le_refl _
  | cons op ops ih =>
    exact fun s => Nat.le_trans (applyOp_nextId_le s op) (ih (applyOp s op))

theorem assignedFrom_ge : ∀ (ops : List Op) (n m : Nat),
    m ∈ assignedFrom n ops → n ≤ m := by
  intro ops
  induction ops with
  | nil => intro n m h; cases h
  | cons op ops ih =>
    intro n m h
    cases op with
    | create d =>
      rcases List.mem_cons.mp h with h1 | h1
      · exact h1 ▸ Nat.le_refl _
      · exact Nat.le_of_succ_le (ih (n + 1) m h1)
    | update i d => exact ih n m h
    | del i => exact ih n m h

theorem assignedFrom_nodup : ∀ (ops : List Op) (n : Nat),
    (assignedFrom n ops).Nodup := by
  intro ops
  induction ops with
  | nil => intro n; exact List.nodup_nil
  | cons op ops ih =>
    intro n
    cases op with
    | create d =>
      refine List.nodup_cons.mpr ⟨?_, ih (n + 1)⟩
      intro hc
      exact absurd (assignedFrom_ge ops (n + 1) n hc) (by omega)
    | update i d => exact ih n
    | del i => exact ih n

theorem run_row_ids : ∀ (ops : List Op) (s : Store), ∀ r ∈ (run s ops).rows,
    r.id ∈ s.rows.map Row.id ∨ r.id ∈ assignedFrom s.nextId ops := by
  intro ops
  induction ops with
  | nil =>
    intro s r hr
    exact Or.inl (List.mem_map_of_mem Row.id hr)
  | cons op ops ih =>
    intro s r hr
    cases op with
    | create d =>
      rcases ih (applyOp s (Op.create d)) r hr with h | h
      · simp only [applyOp, add_record, List.map_append, List.map_cons,
          List.map_nil, List.mem_append, List.mem_singleton] at h
        rcases h with h1 | h1
        · exact Or.inl h1
        · exact Or.inr (List.mem_cons.mpr (Or.inl h1))
      · refine Or.inr (List.mem_cons.mpr (Or.inr ?_))
        simpa [applyOp, add_record] using h
    | update i d =>
      rcases ih (applyOp s (Op.update i d)) r hr with h | h
      · left
        rwa [show applyOp s (Op.update i d) = update_record i d s from rfl,
          update_record_ids] at h
      · right
        simpa [applyOp, update_record, assignedFrom] using h
    | del i =>
      rcases ih (applyOp s (Op.del i)) r hr with h | h
      · left
        obtain ⟨r2, hr2, hr2id⟩ := List.mem_map.mp h
        exact hr2id ▸ List.mem_map_of_mem Row.id (List.mem_of_mem_filter hr2)
      · right
        simpa [applyOp, delete_record, assignedFrom] using h

/-- Claim C8: the identifier is assigned by the store on creation — the
inserted row carries the current AUTOINCREMENT counter, which is then
bumped — it is unique across all records ever created from the fresh
database (the identifiers assigned along any operation sequence are
pairwise distinct, so a deleted record's identifier is never handed out
again), it is never mutated (update rewrites every data field but the
identifier list is unchanged), the counter never decreases, and every
stored row carries one of the assigned identifiers. -/
theorem identifier_invariants (ops : List Op) :
    (run initStore ops).WF ∧
    (∀ d s, add_record d s =
      { rows := s.rows ++ [{ id := s.nextId, fields := d }],
        nextId := s.nextId + 1 }) ∧
    (∀ i d s, (update_record i d s).rows.map Row.id = s.rows.map Row.id) ∧
    (∀ s, s.nextId ≤ (run s ops).nextId) ∧
    (∀ n, (assignedFrom n ops).Nodup) ∧
    (∀ r ∈ (run initStore ops).rows, r.id ∈ assignedFrom initStore.nextId ops) := by
  refine ⟨run_WF ops initStore (by decide), fun d s => rfl, update_record_ids,
    fun s => run_nextId_le ops s, assignedFrom_nodup ops, ?_⟩
  intro r hr
  rcases run_row_ids ops initStore r hr with h | h
  · cases h
  · exact h

/-- Witness for C8: create, delete id 1, create again — the second
create receives the fresh id 2, not the deleted id 1, and that row's
identifier is among the assigned ones. -/
theorem identifier_invariants_witness :
    (({ id := 2, fields := sampleFields } : Row) ∈
      (run initStore [Op.create sampleFields, Op.del 1,
        Op.create sampleFields]).rows) ∧
    (2 : Nat) ∈ assignedFrom initStore.nextId
      [Op.create sampleFields, Op.del 1, Op.create sampleFields] := by
  refine ⟨by decide, ?_⟩
  exact (identifier_invariants [Op.create sampleFields, Op.del 1,
    Op.create sampleFields]).2.2.2.2.2
    { id := 2, fields := sampleFields } (by decide)

end ASNS
